import Mathlib

/-!
Verification development for the gb-webArchiver backend
(`src/backend/server.js`).

The JavaScript source is shallowly embedded: pure string manipulation is
translated to Lean functions on `String`, the WHATWG `new URL(...)`
constructor of the platform (which is not part of the repository) is passed
around as an abstract parameter of type `String → Option JsUrl`
(`Option.none` models a thrown `TypeError`), the network is an oracle,
and the stateful frontier loop of `startCrawl` becomes a fuel-indexed
transition function on an explicit `CrawlState`.
All paths are POSIX style, so the `.replace(/\\/g, '/')` normalizations in
the source are identity and are noted where they occur.  String primitives
are implemented by structural recursion on the character list so that every
definition evaluates inside the kernel.
-/

/-- Result of the platform URL constructor `new URL(...)`: the fields of the
object the source reads (`href`, `hostname`, `pathname`). -/
structure JsUrl where
  href : String
  hostname : String
  pathname : String
deriving DecidableEq

/-- Split a character list at every occurrence of `sep`
(the behavior of JavaScript `String.split` with a one-character separator,
which is the only shape the source uses). -/
def splitOnChar (sep : Char) : List Char → List (List Char)
  | [] => [[]]
  | c :: cs =>
    if c == sep then [] :: splitOnChar sep cs
    else
      match splitOnChar sep cs with
      | [] => [[c]]
      | h :: t => (c :: h) :: t

/-- `p` is a prefix of `s` as strings (structural `isPrefixOf` on chars). -/
def strStartsWith (s p : String) : Bool :=
  p.toList.isPrefixOf s.toList

/-- `s.split('#')[0]` from the source (fragment stripping). -/
def stripFragment (s : String) : String :=
  String.mk ((splitOnChar '#' s.toList).headD [])

/-- Remove one leading slash from a character list. -/
def dropLeadSlash : List Char → List Char
  | '/' :: t => t
  | l => l

/-- `pathname.replace(/^\/|\/$/g, '')`: the regex removes one leading and
one trailing slash (the `^`/`$` anchors keep every interior slash). -/
def stripEdgeSlashes (s : String) : String :=
  String.mk (((dropLeadSlash s.toList).reverse |> dropLeadSlash).reverse)

/-- Character class of `/[<>:"/\\|?*]/` in `getLocalFilePathForPage`. -/
def isUnsafePathChar (c : Char) : Bool :=
  c == '<' || c == '>' || c == ':' || c == '"' || c == '/' || c == '\\' || c == '|' || c == '?' || c == '*'

/-- `pageFilename.replace(/[<>:"/\\|?*]/g, '_')` from the source. -/
def sanitizeFilename (s : String) : String :=
  String.mk (s.toList.map (fun c => if isUnsafePathChar c then '_' else c))

/-- Character class of `/[\/\?%*:|"<>]/` used for `safePageIdentifier`
(note: it differs from the path-mapper class: `%` in, backslash out). -/
def isUnsafeIdChar (c : Char) : Bool :=
  c == '/' || c == '?' || c == '%' || c == '*' || c == ':' || c == '|' || c == '"' || c == '<' || c == '>'

/-- `(pageUrlObject.pathname.replace(/^\/|\/$/g, '') || 'index').replace(/[\/\?%*:|"<>]/g, '_')`
from `fetchPageAndAssets`. -/
def safeIdOf (pathname : String) : String :=
  let base := stripEdgeSlashes pathname
  let base := if base = "" then "index" else base
  String.mk (base.toList.map (fun c => if isUnsafeIdChar c then '_' else c))

/-- Index of the last '.' in a character list, if any. -/
def lastDotIdx : List Char → Option Nat
  | [] => none
  | c :: cs =>
    match lastDotIdx cs with
    | some i => some (i + 1)
    | none => if c == '.' then some 0 else none

/-- Node's `path.extname`: the suffix of the basename starting at its last
dot; empty when there is no dot, when the only dot leads the basename
(dotfiles), or for `".."`. -/
def extname (s : String) : String :=
  let base := (splitOnChar '/' s.toList).getLastD s.toList
  if base == ['.', '.'] then ""
  else
    match lastDotIdx base with
    | none => ""
    | some 0 => ""
    | some i => String.mk (base.drop i)

/-- Whether a path ends in a slash. -/
def endsWithSlash (s : String) : Bool :=
  match s.toList.reverse with
  | '/' :: _ => true
  | _ => false

/-- Node's `path.join` restricted to two segments without `.`/`..`
components, which is how the source uses it. -/
def pathJoin (a b : String) : String :=
  if a = "" then b
  else if b = "" then a
  else if endsWithSlash a then a ++ b
  else a ++ "/" ++ b

/-- Concatenate strings with a separator between them. -/
def joinWith (sep : String) : List String → String
  | [] => ""
  | [x] => x
  | x :: xs => x ++ sep ++ joinWith sep xs

/-- Node's `path.dirname` for slash-separated paths with no trailing
slash (the only shape the source produces). -/
def pathDirname (s : String) : String :=
  let parts := (splitOnChar '/' s.toList).map String.mk
  if parts.length ≤ 1 then "."
  else
    let d := joinWith "/" parts.dropLast
    if d = "" then "/" else d

/-- Path components of a slash-separated path, empty segments dropped. -/
def splitParts (s : String) : List String :=
  ((splitOnChar '/' s.toList).map String.mk).filter (fun p => p ≠ "")

/-- Drop the longest shared leading run of two component lists. -/
def dropShared : List String → List String → List String × List String
  | a :: as2, b :: bs =>
    if a = b then dropShared as2 bs else (a :: as2, b :: bs)
  | as2, bs => (as2, bs)

/-- Node's `path.relative` for already-normalized slash paths: drop the
shared leading components, go up with `..` for what is left of `f`, then
down into what is left of `t`; `""` when the two paths are equal. -/
def pathRelative (f t : String) : String :=
  let p := dropShared (splitParts f) (splitParts t)
  joinWith "/" (p.1.map (fun _ => "..") ++ p.2)

/-- JavaScript `String.trim`: whitespace removed from both ends. -/
def strTrim (s : String) : String :=
  String.mk (((s.toList.dropWhile Char.isWhitespace).reverse.dropWhile Char.isWhitespace).reverse)

/-- `srcset.split(',')[0].trim().split(' ')[0]` from the source. -/
def srcsetFirst (s : String) : String :=
  String.mk ((splitOnChar ' ' (strTrim (String.mk ((splitOnChar ',' s.toList).headD []))).toList).headD [])

/-- JavaScript string coercion applied by `new URL(x, base)` when `x` is
`undefined` (a missing attribute): it stringifies to `"undefined"`. -/
def jsCoerce : Option String → String
  | none => "undefined"
  | some s => s

/-- `[...new Set(xs)]`: deduplication keeping first occurrences in order. -/
def dedupKeepFirst (l : List String) : List String :=
  l.foldl (fun acc x => if acc.contains x then acc else acc ++ [x]) []

/-- `getLocalFilePathForPage(pageUrl, startUrl, archivePath)` from the
source, with the two `new URL(...)` parses of its string arguments
represented by the already-parsed `JsUrl` values (URL parsing is
deterministic, and every call site parses the same strings). -/
def getLocalFilePathForPage (pageU startU : JsUrl) (archivePath : String) : String :=
  let pageFilename := sanitizeFilename (stripEdgeSlashes pageU.pathname)
  let pageFilename :=
    if pageFilename = "" ∨ pageU.hostname ≠ startU.hostname then "index.html"
    else if extname pageFilename = "" then pathJoin pageFilename "index.html"
    else pageFilename
  pathJoin archivePath pageFilename

/-- The Path Mapper as the spec words it (claim C6): take the URL's path
component, strip one leading and one trailing slash, replace each
filesystem-unsafe character with an underscore; if the result is empty or
the hostnames differ, the name is `index.html`; if the name has no file
extension, append `index.html` beneath it as a directory; join the name
onto the archive path. -/
def pathMapperSpec (pageU startU : JsUrl) (archivePath : String) : String :=
  let name := sanitizeFilename (stripEdgeSlashes pageU.pathname)
  let name := if name = "" ∨ pageU.hostname ≠ startU.hostname then "index.html" else name
  let name := if extname name = "" then pathJoin name "index.html" else name
  pathJoin archivePath name

/-- Link discovery from `fetchPageAndAssets` (the `$('a').each` loop): for
each anchor's href attribute (`none` = attribute absent, and the empty
string is falsy in `if (link)`), resolve it against the page URL with the
abstract parser `parse2` (modelling `new URL(link, url)`), strip the
fragment, re-parse with `parse1` (modelling `new URL(absoluteLink)`), and
keep the stripped URL when its hostname equals the start domain; a `none`
from either parse models the thrown error swallowed by the inner catch. -/
def discoverLinks (parse2 : String → String → Option JsUrl) (parse1 : String → Option JsUrl)
    (startDomain url : String) : List (Option String) → List String
  | [] => []
  | h :: t =>
    let rest := discoverLinks parse2 parse1 startDomain url t
    match h with
    | none => rest
    | some link =>
      if link = "" then rest
      else
        match parse2 link url with
        | none => rest
        | some u =>
          let absoluteLink := stripFragment u.href
          match parse1 absoluteLink with
          | none => rest
          | some u2 => if u2.hostname = startDomain then absoluteLink :: rest else rest

/-- The three asset kinds the source selects: `link[rel="stylesheet"]`,
`img`, `script`. -/
inductive AssetTag where
  | css
  | img
  | js
deriving DecidableEq

/-- An asset-bearing element with the attributes the source reads. -/
structure AssetElem where
  tag : AssetTag
  href : Option String
  src : Option String
  srcset : Option String
deriving DecidableEq

/-- The per-page `counters = { css: 0, img: 0, js: 0 }` object. -/
structure Counters where
  css : Nat
  img : Nat
  js : Nat
deriving DecidableEq

/-- Each element bumps exactly its kind's counter, whether or not its
download is attempted. -/
def bumpCounters (c : Counters) (t : AssetTag) : Counters :=
  match t with
  | .css => { c with css := c.css + 1 }
  | .img => { c with img := c.img + 1 }
  | .js => { c with js := c.js + 1 }

/-- The `fileUrl` the source computes per element: `href` for stylesheet
links; for images the first srcset candidate when `srcset` is truthy, else
`src`; `src` for scripts. -/
def assetFileUrl (e : AssetElem) : Option String :=
  match e.tag with
  | .css => e.href
  | .img =>
    match e.srcset with
    | some ss => if ss = "" then e.src else some (srcsetFirst ss)
    | none => e.src
  | .js => e.src

/-- The in-place rewrite performed when an asset download succeeds: the
owning attribute is set to the relative path (`href` for stylesheet links,
`src` otherwise), and an `img` additionally drops its `srcset`.  The
`.replace(/\\/g, '/')` in the source is the identity on POSIX paths. -/
def applyAssetRewrite (e : AssetElem) (rel : String) : AssetElem :=
  match e.tag with
  | .css => { e with href := some rel }
  | .img => { e with src := some rel, srcset := none }
  | .js => { e with src := some rel }

/-- The tail of one element's processing, shared by the three kinds: the
`if (fileUrl && !fileUrl.startsWith('data:'))` guard, the resolution
`new URL(fileUrl, url)` (whose failure throws out of the `.each` and fails
the whole page fetch: `none`), and the download whose success (`net`)
rewrites the element and whose failure leaves it untouched. -/
def assetFinish (parse2 : String → String → Option JsUrl) (net : String → Bool)
    (url archivePath safeId pageDir : String) (c : Counters) (e : AssetElem)
    (fileUrl : Option String) (filename : String) : Option (Counters × AssetElem) :=
  match fileUrl with
  | none => some (c, e)
  | some s =>
    if s = "" then some (c, e)
    else if strStartsWith s "data:" then some (c, e)
    else
      match parse2 s url with
      | none => none
      | some u =>
        let assetSavePath := pathJoin (pathJoin (pathJoin archivePath "assets") safeId) filename
        if net u.href then some (c, applyAssetRewrite e (pathRelative pageDir assetSavePath))
        else some (c, e)

/-- Processing of one element of the `$('link[rel="stylesheet"], img, script')`
selection: counter bump and filename assignment (images and scripts also
resolve their reference — with JavaScript coercing a missing attribute to
the string "undefined" — to infer the extension, and a failed resolution
throws, failing the page), then `assetFinish`. -/
def processOne (parse2 : String → String → Option JsUrl) (net : String → Bool)
    (url archivePath safeId pageDir : String) (c : Counters) (e : AssetElem) :
    Option (Counters × AssetElem) :=
  let fileUrl := assetFileUrl e
  match e.tag with
  | .css =>
    assetFinish parse2 net url archivePath safeId pageDir (bumpCounters c .css) e fileUrl
      ("style-" ++ toString (c.css + 1) ++ ".css")
  | .img =>
    match parse2 (jsCoerce fileUrl) url with
    | none => none
    | some u =>
      let ext := if extname u.pathname = "" then ".jpg" else extname u.pathname
      assetFinish parse2 net url archivePath safeId pageDir (bumpCounters c .img) e fileUrl
        ("image-" ++ toString (c.img + 1) ++ ext)
  | .js =>
    match parse2 (jsCoerce fileUrl) url with
    | none => none
    | some u =>
      let ext := if extname u.pathname = "" then ".js" else extname u.pathname
      assetFinish parse2 net url archivePath safeId pageDir (bumpCounters c .js) e fileUrl
        ("script-" ++ toString (c.js + 1) ++ ext)

/-- The whole asset pass over the selected elements, in document order.
`none` when any element's synchronous URL resolution throws (which aborts
`fetchPageAndAssets` through its outer catch). -/
def processAssets (parse2 : String → String → Option JsUrl) (net : String → Bool)
    (url archivePath safeId pageDir : String) : Counters → List AssetElem → Option (List AssetElem)
  | _, [] => some []
  | c, e :: es =>
    match processOne parse2 net url archivePath safeId pageDir c e with
    | none => none
    | some (c2, e2) =>
      match processAssets parse2 net url archivePath safeId pageDir c2 es with
      | none => none
      | some es2 => some (e2 :: es2)

/-- A retrieved, cheerio-parsed document: its anchor hrefs (in document
order) and its asset-bearing elements. -/
structure PageDoc where
  anchors : List (Option String)
  assets : List AssetElem
deriving DecidableEq

/-- `fetchPageAndAssets(url, archivePath, startUrl)`: `pagesNet url` is the
HTTP GET plus cheerio parse (`none` = timeout/non-2xx/error), then the
start domain is read (`new URL(startUrl).hostname`), links are discovered,
the page's local path and asset-folder identifier are computed
(`new URL(url)`), assets are processed, and the deduplicated link set is
returned.  Any thrown error inside is converted to `none` by the outer
catch, matching the source's `return null`. -/
def fetchPage (parse2 : String → String → Option JsUrl) (parse1 : String → Option JsUrl)
    (net : String → Bool) (pagesNet : String → Option PageDoc)
    (startUrl archivePath url : String) : Option (List String × List AssetElem) :=
  match pagesNet url with
  | none => none
  | some doc =>
    match parse1 startUrl with
    | none => none
    | some su =>
      let links := discoverLinks parse2 parse1 su.hostname url doc.anchors
      match parse1 url with
      | none => none
      | some pu =>
        let localPagePath := getLocalFilePathForPage pu su archivePath
        let safeId := safeIdOf pu.pathname
        match processAssets parse2 net url archivePath safeId (pathDirname localPagePath)
            (Counters.mk 0 0 0) doc.assets with
        | none => none
        | some assets2 => some (dedupKeepFirst links, assets2)

/-- The fetcher as the frontier loop consumes it: just the discovered
links of a successful fetch. -/
def webOf (parse2 : String → String → Option JsUrl) (parse1 : String → Option JsUrl)
    (net : String → Bool) (pagesNet : String → Option PageDoc)
    (startUrl archivePath : String) : String → Option (List String) :=
  fun url => (fetchPage parse2 parse1 net pagesNet startUrl archivePath url).map Prod.fst

/-- The mutable state of the frontier loop in `startCrawl`: the FIFO
`queue`, the `visited` set (as its insertion-ordered element list), the
keys of `pageDataMap` in insertion order, and a log of every invocation of
the page fetcher together with its outcome. -/
structure CrawlState where
  queue : List String
  visited : List String
  pages : List String
  fetchLog : List (String × Bool)
deriving DecidableEq

/-- `const queue = [startUrl]; const visited = new Set(); ...` -/
def initState (startUrl : String) : CrawlState :=
  { queue := [startUrl], visited := [], pages := [], fetchLog := [] }

/-- One iteration of the phase-1 loop body: dequeue, skip if visited,
fetch (`web`), on failure just continue, on success add to visited and the
snapshot store and enqueue each discovered link that is neither visited nor
already queued (the checks run against the already-updated visited set and
the queue as it grows, exactly as in the source). -/
def crawlStep (web : String → Option (List String)) (s : CrawlState) : CrawlState :=
  match s.queue with
  | [] => s
  | currentUrl :: rest =>
    if s.visited.contains currentUrl then { s with queue := rest }
    else
      match web currentUrl with
      | none => { s with queue := rest, fetchLog := s.fetchLog ++ [(currentUrl, false)] }
      | some links =>
        let visited2 := s.visited ++ [currentUrl]
        { queue := links.foldl
            (fun q l => if ¬ visited2.contains l ∧ ¬ q.contains l then q ++ [l] else q) rest,
          visited := visited2,
          pages := s.pages ++ [currentUrl],
          fetchLog := s.fetchLog ++ [(currentUrl, true)] }

/-- The fuel-indexed frontier loop:
`while (queue.length > 0 && visited.size < maxPagesToCrawl)`. -/
def crawlRun (web : String → Option (List String)) (maxPages : Nat) :
    Nat → CrawlState → CrawlState
  | 0, s => s
  | Nat.succ fuel, s =>
    if s.queue ≠ [] ∧ s.visited.length < maxPages then
      crawlRun web maxPages fuel (crawlStep web s)
    else s

/-- The URLs of the successful entries of a fetch log. -/
def successLog (log : List (String × Bool)) : List String :=
  (log.filter (fun p => p.2)).map (fun p => p.1)

/-- The phase-2 treatment of one anchor href in `startCrawl`: skipped when
falsy (empty) or a bare-fragment / `mailto:` / `tel:` reference; otherwise
resolved against the page URL and fragment-stripped, then rewritten to a
relative local path when on-domain and visited, and to the absolute
resolved URL otherwise; a parse failure leaves it untouched (the empty
catch).  `pageU` is the parse of `currentUrl` used by the page's own
`getLocalFilePathForPage` call. -/
def rewriteHref (parse2 : String → String → Option JsUrl) (parse1 : String → Option JsUrl)
    (domain : String) (visited : List String) (startU pageU : JsUrl)
    (archivePath currentUrl href : String) : String :=
  if href = "" then href
  else if strStartsWith href "#" then href
  else if strStartsWith href "mailto:" then href
  else if strStartsWith href "tel:" then href
  else
    match parse2 href currentUrl with
    | none => href
    | some u =>
      let absoluteLinkUrl := stripFragment u.href
      match parse1 absoluteLinkUrl with
      | none => href
      | some u2 =>
        if u2.hostname = domain ∧ visited.contains absoluteLinkUrl then
          let localPagePath := getLocalFilePathForPage pageU startU archivePath
          let linkedPath := getLocalFilePathForPage u2 startU archivePath
          let rel := pathRelative (pathDirname localPagePath) linkedPath
          if rel = "" then "./index.html" else rel
        else absoluteLinkUrl

/-- The phase-2 `$('a').each` pass over one stored page: every anchor href
is rewritten independently in place. -/
def rewritePage (parse2 : String → String → Option JsUrl) (parse1 : String → Option JsUrl)
    (domain : String) (visited : List String) (startU pageU : JsUrl)
    (archivePath currentUrl : String) (anchors : List (Option String)) : List (Option String) :=
  anchors.map (fun h =>
    h.map (rewriteHref parse2 parse1 domain visited startU pageU archivePath currentUrl))

/-- The body of a POST to `/api/archive`, per the spec's schema
(`{url: string, maxPages?: integer}`). -/
structure ArchiveRequest where
  url : Option String
  maxPages : Option Int
deriving DecidableEq

/-- Observable outcome of the `/api/archive` handler. -/
inductive EndpointResult where
  | clientError (code : Nat)
  | started (url : String) (budget : Int)
deriving DecidableEq

/-- The `/api/archive` handler: `if (!url)` → 400 (note: the empty string
is falsy in JavaScript); else launch `startCrawl` in the background with
`maxPages > 0 ? maxPages : 10` and respond immediately. -/
def handleArchive (r : ArchiveRequest) : EndpointResult :=
  match r.url with
  | none => .clientError 400
  | some u =>
    if u = "" then .clientError 400
    else
      .started u
        (match r.maxPages with
         | some m => if m > 0 then m else 10
         | none => 10)

/-- The `_manifest.json` record, minus the wall-clock `archivedAt` field
(real time is outside the embedding). -/
structure Manifest where
  startUrl : String
  entrypoint : String
  crawledPages : List String
deriving DecidableEq

/-- `startCrawl` end to end, as far as its durable outcome: parse the
start URL (a throw here crashes the session before the loop: `none`), run
the frontier loop, re-parse every stored page's URL for phase 2 (a failure
there would also throw before the manifest is written; with a
deterministic parser this cannot happen for pages that phase 1 fetched),
then write the manifest with the visited set sorted.  `Array.from(visited).sort()`
on the insertion-ordered visited set is modelled with `List.insertionSort`
under the string order, which yields the same sorted permutation. -/
def runSession (parse1 : String → Option JsUrl) (web : String → Option (List String))
    (startUrl : String) (maxPages fuel : Nat) (archivePath : String) : Option Manifest :=
  match parse1 startUrl with
  | none => none
  | some su =>
    let final := crawlRun web maxPages fuel (initState startUrl)
    if final.pages.all (fun u => (parse1 u).isSome) then
      some { startUrl := startUrl,
             entrypoint := pathRelative archivePath (getLocalFilePathForPage su su archivePath),
             crawledPages := List.insertionSort (fun a b => a ≤ b) final.visited }
    else none

/-- Counters after processing a list of elements (each element bumps its
kind's counter exactly once, independently of download outcomes). -/
def countersAfter (c : Counters) (es : List AssetElem) : Counters :=
  es.foldl (fun a e => bumpCounters a e.tag) c

/-- The download of element `e`'s asset was attempted and failed: its
reference is truthy, not a `data:` URI, resolves against the page URL, and
the network request for the resolved href fails. -/
def assetDownloadFailed (parse2 : String → String → Option JsUrl) (net : String → Bool)
    (url : String) (e : AssetElem) : Prop :=
  ∃ s u, assetFileUrl e = some s ∧ s ≠ "" ∧ strStartsWith s "data:" = false ∧
    parse2 s url = some u ∧ net u.href = false

/-- Phase-1 bookkeeping invariant of `startCrawl`: the visited set lists
exactly the successfully fetched URLs in order, without duplicates, and
`pageDataMap` holds exactly the visited pages. -/
def logInv (s : CrawlState) : Prop :=
  s.visited = successLog s.fetchLog ∧ s.visited.Nodup ∧ s.pages = s.visited

/-- Order invariant of the fetch log: among all log entries for one URL,
only the last can be a success. -/
def logOrdered (s : CrawlState) : Prop :=
  ∀ u, ∀ e ∈ (s.fetchLog.filter (fun p => p.1 == u)).dropLast, e.2 = false

/-- Both phase-1 invariants together. -/
def crawlInv (s : CrawlState) : Prop :=
  logInv s ∧ logOrdered s

/-- All queued and all visited URLs satisfy `P`. -/
def stateAllP (P : String → Prop) (s : CrawlState) : Prop :=
  (∀ x ∈ s.queue, P x) ∧ (∀ x ∈ s.visited, P x)

/-- Concrete single-host URL parser used for witnesses: host `e` with the
pages `/`, `/a`, `/b.html` and `/p`. -/
def demoParse1 : String → Option JsUrl := fun s =>
  if s = "http://e/" then some ⟨"http://e/", "e", "/"⟩
  else if s = "http://e/a" then some ⟨"http://e/a", "e", "/a"⟩
  else if s = "http://e/b.html" then some ⟨"http://e/b.html", "e", "/b.html"⟩
  else if s = "http://e/p" then some ⟨"http://e/p", "e", "/p"⟩
  else none

/-- Concrete relative-reference resolver matching `demoParse1`; `"::bad"`
fails to parse, and the empty href resolves to its base, as the WHATWG
constructor does. -/
def demoParse2 : String → String → Option JsUrl := fun href base =>
  if href = "::bad" then none
  else if href = "" then demoParse1 base
  else if strStartsWith href "http://" then demoParse1 href
  else if href = "/b.html" then some ⟨"http://e/b.html", "e", "/b.html"⟩
  else if href = "a" then
    (if base = "http://e/" then some ⟨"http://e/a", "e", "/a"⟩ else none)
  else none

/-- Parsed start URL `http://e/` of the demo host. -/
def demoStartU : JsUrl := ⟨"http://e/", "e", "/"⟩

/-- Parsed page URL `http://e/a` of the demo host. -/
def demoPageA : JsUrl := ⟨"http://e/a", "e", "/a"⟩

/-- Fetch oracle for the C1 counterexample: page `s` links to `x` and `a`,
page `a` links to `x`, and `x` always fails to fetch. -/
def webC1 : String → Option (List String) := fun u =>
  if u = "s" then some ["x", "a"]
  else if u = "a" then some ["x"]
  else none

/-- Demo network documents: the start page links to `/a`, which is empty. -/
def demoPagesNet : String → Option PageDoc := fun u =>
  if u = "http://e/" then some ⟨[some "a"], []⟩
  else if u = "http://e/a" then some ⟨[], []⟩
  else none

/-- Demo document with one image whose source reference does not parse. -/
def badPagesNet : String → Option PageDoc := fun u =>
  if u = "http://e/" then some ⟨[], [⟨AssetTag.img, none, some "::bad", none⟩]⟩
  else none

/-- Demo image element whose (valid) asset URL will fail to download. -/
def demoAsset : AssetElem := ⟨AssetTag.img, none, some "http://e/a", none⟩

/-- Demo document with one sound image asset. -/
def demoPagesW : String → Option PageDoc := fun u =>
  if u = "http://e/" then some ⟨[], [demoAsset]⟩
  else none

/-- Demo fetch oracle that succeeds only on the start page, with no links. -/
def demoWebOne : String → Option (List String) := fun u =>
  if u = "http://e/" then some [] else none

theorem crawlRun_stopped (web : String → Option (List String)) (mp : Nat) (s : CrawlState)
    (h : ¬(s.queue ≠ [] ∧ s.visited.length < mp)) : ∀ f, crawlRun web mp f s = s := by
  intro f
  cases f with
  | zero => rfl
  | succ f => simp only [crawlRun, if_neg h]

theorem crawlRun_add (web : String → Option (List String)) (mp m k : Nat) :
    ∀ s, crawlRun web mp (m + k) s = crawlRun web mp k (crawlRun web mp m s) := by
  induction m with
  | zero => intro s; rw [Nat.zero_add]; rfl
  | succ m ih =>
    intro s
    rw [Nat.succ_add]
    by_cases h : s.queue ≠ [] ∧ s.visited.length < mp
    · simp only [crawlRun, if_pos h]
      exact ih (crawlStep web s)
    · rw [crawlRun_stopped web mp s h (Nat.succ (m + k)),
        crawlRun_stopped web mp s h (Nat.succ m),
        crawlRun_stopped web mp s h k]

theorem crawlStep_visited (web : String → Option (List String)) (s : CrawlState) :
    (crawlStep web s).visited = s.visited ∨
      ∃ u, (crawlStep web s).visited = s.visited ++ [u] := by
  cases hq : s.queue with
  | nil => left; simp [crawlStep, hq]
  | cons c rest =>
    by_cases hv : c ∈ s.visited
    · left; simp [crawlStep, hq, hv]
    · cases hw : web c with
      | none => left; simp [crawlStep, hq, hv, hw]
      | some links => right; exact ⟨c, by simp [crawlStep, hq, hv, hw]⟩

theorem crawlRun_budget (web : String → Option (List String)) (mp : Nat) :
    ∀ f s, s.visited.length ≤ mp → (crawlRun web mp f s).visited.length ≤ mp := by
  intro f
  induction f with
  | zero => intro s h; exact h
  | succ f ih =>
    intro s h
    by_cases hc : s.queue ≠ [] ∧ s.visited.length < mp
    · simp only [crawlRun, if_pos hc]
      apply ih
      rcases crawlStep_visited web s with h1 | ⟨u, h1⟩
      · rw [h1]; exact h
      · rw [h1, List.length_append, List.length_singleton]
        exact hc.2
    · simp only [crawlRun, if_neg hc]; exact h

theorem crawlRun_visited_grows (web : String → Option (List String)) (mp : Nat) :
    ∀ f s, s.visited <+: (crawlRun web mp f s).visited := by
  intro f
  induction f with
  | zero => intro s; exact List.prefix_rfl
  | succ f ih =>
    intro s
    by_cases hc : s.queue ≠ [] ∧ s.visited.length < mp
    · simp only [crawlRun, if_pos hc]
      have h1 : s.visited <+: (crawlStep web s).visited := by
        rcases crawlStep_visited web s with h1 | ⟨u, h1⟩
        · rw [h1]
        · rw [h1]; exact List.prefix_append s.visited [u]
      exact h1.trans (ih (crawlStep web s))
    · simp only [crawlRun, if_neg hc]
      exact List.prefix_rfl

/-- C3: at every iteration boundary of the phase-1 loop (every fuel value),
the visited set of a session only grows (the earlier visited list is a
prefix of any later one) and its size never exceeds the page budget. -/
theorem visited_monotone_and_budget (web : String → Option (List String))
    (mp : Nat) (startUrl : String) (fuel k : Nat) :
    (crawlRun web mp fuel (initState startUrl)).visited <+:
      (crawlRun web mp (fuel + k) (initState startUrl)).visited ∧
    (crawlRun web mp fuel (initState startUrl)).visited.length ≤ mp := by
  constructor
  · rw [crawlRun_add]
    exact crawlRun_visited_grows web mp k _
  · exact crawlRun_budget web mp fuel _ (by simp [initState])

theorem successLog_append_false (log : List (String × Bool)) (c : String) :
    successLog (log ++ [(c, false)]) = successLog log := by
  simp [successLog]

theorem successLog_append_true (log : List (String × Bool)) (c : String) :
    successLog (log ++ [(c, true)]) = successLog log ++ [c] := by
  simp [successLog]

theorem mem_successLog_of_true (log : List (String × Bool)) (w : String)
    (h : (w, true) ∈ log) : w ∈ successLog log := by
  unfold successLog
  exact List.mem_map_of_mem _ (List.mem_filter.mpr ⟨h, rfl⟩)

theorem logOrdered_append (log : List (String × Bool)) (c : String) (b : Bool)
    (hold : ∀ u, ∀ e ∈ (log.filter (fun p => p.1 == u)).dropLast, e.2 = false)
    (hnot : (c, true) ∉ log) :
    ∀ u, ∀ e ∈ ((log ++ [(c, b)]).filter (fun p => p.1 == u)).dropLast, e.2 = false := by
  intro u e he
  obtain ⟨e1, e2⟩ := e
  rw [List.filter_append] at he
  by_cases hcu : c = u
  · have hfe : List.filter (fun p => p.1 == u) [(c, b)] = [(c, b)] := by simp [hcu]
    rw [hfe, List.dropLast_concat] at he
    cases e2 with
    | false => rfl
    | true =>
      exfalso
      apply hnot
      have hmem := List.mem_filter.mp he
      have h1 : e1 = u := by simpa using hmem.2
      have h2m : (e1, true) ∈ log := hmem.1
      rwa [h1, ← hcu] at h2m
  · have hfe : List.filter (fun p => p.1 == u) [(c, b)] = [] := by simp [hcu]
    rw [hfe, List.append_nil] at he
    exact hold u (e1, e2) he

theorem crawlStep_eq_skip (web : String → Option (List String)) (s : CrawlState)
    (c : String) (rest : List String) (hq : s.queue = c :: rest) (hv : c ∈ s.visited) :
    crawlStep web s = { s with queue := rest } := by
  simp [crawlStep, hq, hv]

theorem crawlStep_eq_fail (web : String → Option (List String)) (s : CrawlState)
    (c : String) (rest : List String) (hq : s.queue = c :: rest) (hv : c ∉ s.visited)
    (hw : web c = none) :
    crawlStep web s = { s with queue := rest, fetchLog := s.fetchLog ++ [(c, false)] } := by
  simp [crawlStep, hq, hv, hw]

theorem crawlStep_eq_fetch (web : String → Option (List String)) (s : CrawlState)
    (c : String) (rest links : List String) (hq : s.queue = c :: rest) (hv : c ∉ s.visited)
    (hw : web c = some links) :
    crawlStep web s =
      { queue := links.foldl (fun q l =>
          if ¬ (s.visited ++ [c]).contains l ∧ ¬ q.contains l then q ++ [l] else q) rest,
        visited := s.visited ++ [c], pages := s.pages ++ [c],
        fetchLog := s.fetchLog ++ [(c, true)] } := by
  simp [crawlStep, hq, hv, hw]

theorem crawlStep_inv (web : String → Option (List String)) (s : CrawlState)
    (h : crawlInv s) : crawlInv (crawlStep web s) := by
  obtain ⟨⟨h1, h2, h3⟩, h4⟩ := h
  cases hq : s.queue with
  | nil =>
    have : crawlStep web s = s := by simp [crawlStep, hq]
    rw [this]
    exact ⟨⟨h1, h2, h3⟩, h4⟩
  | cons c rest =>
    by_cases hv : c ∈ s.visited
    · rw [crawlStep_eq_skip web s c rest hq hv]
      exact ⟨⟨h1, h2, h3⟩, h4⟩
    · have hnot : (c, true) ∉ s.fetchLog := by
        intro hmem
        exact hv (h1 ▸ mem_successLog_of_true s.fetchLog c hmem)
      cases hw : web c with
      | none =>
        rw [crawlStep_eq_fail web s c rest hq hv hw]
        refine ⟨⟨?_, h2, h3⟩, ?_⟩
        · rw [successLog_append_false]; exact h1
        · exact logOrdered_append s.fetchLog c false h4 hnot
      | some links =>
        rw [crawlStep_eq_fetch web s c rest links hq hv hw]
        refine ⟨⟨?_, ?_, ?_⟩, ?_⟩
        · rw [successLog_append_true, h1]
        · rw [List.nodup_append]
          exact ⟨h2, List.nodup_singleton c, by simp [hv]⟩
        · rw [h3]
        · exact logOrdered_append s.fetchLog c true h4 hnot

theorem crawlRun_inv (web : String → Option (List String)) (mp : Nat) :
    ∀ f s, crawlInv s → crawlInv (crawlRun web mp f s) := by
  intro f
  induction f with
  | zero => intro s h; exact h
  | succ f ih =>
    intro s h
    by_cases hc : s.queue ≠ [] ∧ s.visited.length < mp
    · simp only [crawlRun, if_pos hc]
      exact ih _ (crawlStep_inv web s h)
    · simp only [crawlRun, if_neg hc]
      exact h

theorem crawlInv_init (startUrl : String) : crawlInv (initState startUrl) := by
  refine ⟨⟨rfl, List.nodup_nil, rfl⟩, ?_⟩
  intro u e he
  simp [initState, successLog] at he

/-- C1 (amended): in a session's fetch log, every URL is successfully
fetched at most once, and among all fetch attempts for one URL only the
last can be the successful one — so a URL is re-fetched only when every one
of its earlier fetches failed.  (The original claim, that no URL is ever
fetched twice, is refuted by `refetch_after_failure_cex`.) -/
theorem fetch_at_most_once (web : String → Option (List String))
    (mp fuel : Nat) (startUrl : String) :
    (successLog (crawlRun web mp fuel (initState startUrl)).fetchLog).Nodup ∧
    ∀ u, ∀ e ∈ (((crawlRun web mp fuel (initState startUrl)).fetchLog.filter
        (fun p => p.1 == u)).dropLast), e.2 = false := by
  have h := crawlRun_inv web mp fuel (initState startUrl) (crawlInv_init startUrl)
  exact ⟨h.1.1 ▸ h.1.2.1, h.2⟩

/-- C1 counterexample: with a start page linking to `x` and `a`, where `x`
fails to fetch and `a` (fetched later) links to `x` again, the frontier
loop invokes the fetcher on `x` twice — the fetch log is not duplicate-free,
because a failed URL is rediscoverable and is then re-queued. -/
theorem refetch_after_failure_cex :
    ((crawlRun webC1 10 6 (initState "s")).fetchLog.map Prod.fst) = ["s", "x", "a", "x"] ∧
    ¬ ((crawlRun webC1 10 6 (initState "s")).fetchLog.map Prod.fst).Nodup := by
  constructor
  · decide
  · decide

theorem discoverLinks_host (parse2 : String → String → Option JsUrl)
    (parse1 : String → Option JsUrl) (d url : String) :
    ∀ hs, ∀ x ∈ discoverLinks parse2 parse1 d url hs,
      ∃ u, parse1 x = some u ∧ u.hostname = d := by
  intro hs
  induction hs with
  | nil => intro x hx; simp [discoverLinks] at hx
  | cons h t ih =>
    intro x hx
    cases h with
    | none => exact ih x hx
    | some link =>
      by_cases hl : link = ""
      · rw [show discoverLinks parse2 parse1 d url (some link :: t) =
            discoverLinks parse2 parse1 d url t by simp [discoverLinks, hl]] at hx
        exact ih x hx
      · cases hp : parse2 link url with
        | none =>
          rw [show discoverLinks parse2 parse1 d url (some link :: t) =
              discoverLinks parse2 parse1 d url t by simp [discoverLinks, hl, hp]] at hx
          exact ih x hx
        | some u =>
          cases hp1 : parse1 (stripFragment u.href) with
          | none =>
            rw [show discoverLinks parse2 parse1 d url (some link :: t) =
                discoverLinks parse2 parse1 d url t by simp [discoverLinks, hl, hp, hp1]] at hx
            exact ih x hx
          | some u2 =>
            by_cases hd : u2.hostname = d
            · rw [show discoverLinks parse2 parse1 d url (some link :: t) =
                  stripFragment u.href :: discoverLinks parse2 parse1 d url t by
                    simp [discoverLinks, hl, hp, hp1, hd]] at hx
              rcases List.mem_cons.mp hx with hx1 | hx1
              · exact ⟨u2, hx1 ▸ hp1, hd⟩
              · exact ih x hx1
            · rw [show discoverLinks parse2 parse1 d url (some link :: t) =
                  discoverLinks parse2 parse1 d url t by simp [discoverLinks, hl, hp, hp1, hd]] at hx
              exact ih x hx

theorem dedup_foldl_mem (x : String) :
    ∀ (l acc : List String),
      x ∈ l.foldl (fun acc2 y => if acc2.contains y then acc2 else acc2 ++ [y]) acc →
      x ∈ acc ∨ x ∈ l := by
  intro l
  induction l with
  | nil => intro acc h; left; exact h
  | cons y t ih =>
    intro acc h
    rw [List.foldl_cons] at h
    rcases ih (if acc.contains y then acc else acc ++ [y]) h with h1 | h1
    · by_cases hc : acc.contains y
      · rw [if_pos hc] at h1; left; exact h1
      · rw [if_neg hc] at h1
        rcases List.mem_append.mp h1 with h2 | h2
        · left; exact h2
        · right; simp at h2; simp [h2]
    · right; simp [h1]

theorem dedupKeepFirst_mem (l : List String) (x : String)
    (h : x ∈ dedupKeepFirst l) : x ∈ l := by
  rcases dedup_foldl_mem x l [] h with h1 | h1
  · simp at h1
  · exact h1

theorem webOf_host (parse2 : String → String → Option JsUrl) (parse1 : String → Option JsUrl)
    (net : String → Bool) (pagesNet : String → Option PageDoc)
    (startUrl archivePath : String) (su : JsUrl) (hsu : parse1 startUrl = some su) :
    ∀ url links, webOf parse2 parse1 net pagesNet startUrl archivePath url = some links →
      ∀ x ∈ links, ∃ u, parse1 x = some u ∧ u.hostname = su.hostname := by
  intro url links hw x hx
  unfold webOf fetchPage at hw
  cases hd : pagesNet url with
  | none => rw [hd] at hw; cases hw
  | some doc =>
    rw [hd, hsu] at hw
    cases hpu : parse1 url with
    | none => rw [hpu] at hw; cases hw
    | some pu =>
      rw [hpu] at hw
      dsimp only at hw
      cases hpa : processAssets parse2 net url archivePath (safeIdOf pu.pathname)
          (pathDirname (getLocalFilePathForPage pu su archivePath))
          (Counters.mk 0 0 0) doc.assets with
      | none => rw [hpa] at hw; cases hw
      | some assets2 =>
        rw [hpa] at hw
        have hw2 : dedupKeepFirst (discoverLinks parse2 parse1 su.hostname url doc.anchors)
            = links := by simpa using hw
        rw [← hw2] at hx
        exact discoverLinks_host parse2 parse1 su.hostname url doc.anchors x
          (dedupKeepFirst_mem _ x hx)

theorem foldl_enqueue_mem (visited2 : List String) (links : List String) :
    ∀ (q0 : List String) (x : String),
      x ∈ links.foldl
          (fun q l => if ¬ visited2.contains l ∧ ¬ q.contains l then q ++ [l] else q) q0 →
      x ∈ q0 ∨ x ∈ links := by
  induction links with
  | nil => intro q0 x h; left; exact h
  | cons y t ih =>
    intro q0 x h
    rw [List.foldl_cons] at h
    rcases ih _ x h with h1 | h1
    · by_cases hc : ¬ visited2.contains y ∧ ¬ q0.contains y
      · rw [if_pos hc] at h1
        rcases List.mem_append.mp h1 with h2 | h2
        · left; exact h2
        · right; simp at h2; simp [h2]
      · rw [if_neg hc] at h1; left; exact h1
    · right; simp [h1]

theorem crawlStep_allP (P : String → Prop) (web : String → Option (List String))
    (hweb : ∀ u L, web u = some L → ∀ x ∈ L, P x) (s : CrawlState)
    (h : stateAllP P s) : stateAllP P (crawlStep web s) := by
  obtain ⟨hq2, hv2⟩ := h
  cases hq : s.queue with
  | nil =>
    have : crawlStep web s = s := by simp [crawlStep, hq]
    rw [this]; exact ⟨hq2, hv2⟩
  | cons c rest =>
    have hrest : ∀ x ∈ rest, P x := fun x hx => hq2 x (hq ▸ List.mem_cons_of_mem c hx)
    have hc : P c := hq2 c (hq ▸ List.mem_cons_self c rest)
    by_cases hv : c ∈ s.visited
    · rw [crawlStep_eq_skip web s c rest hq hv]
      exact ⟨hrest, hv2⟩
    · cases hw : web c with
      | none =>
        rw [crawlStep_eq_fail web s c rest hq hv hw]
        exact ⟨hrest, hv2⟩
      | some links =>
        rw [crawlStep_eq_fetch web s c rest links hq hv hw]
        refine ⟨?_, ?_⟩
        · intro x hx
          rcases foldl_enqueue_mem (s.visited ++ [c]) links rest x hx with h1 | h1
          · exact hrest x h1
          · exact hweb c links hw x h1
        · intro x hx
          rcases List.mem_append.mp hx with h1 | h1
          · exact hv2 x h1
          · simp at h1; exact h1 ▸ hc

theorem crawlRun_allP (P : String → Prop) (web : String → Option (List String))
    (hweb : ∀ u L, web u = some L → ∀ x ∈ L, P x) (mp : Nat) :
    ∀ f s, stateAllP P s → stateAllP P (crawlRun web mp f s) := by
  intro f
  induction f with
  | zero => intro s h; exact h
  | succ f ih =>
    intro s h
    by_cases hc : s.queue ≠ [] ∧ s.visited.length < mp
    · simp only [crawlRun, if_pos hc]
      exact ih _ (crawlStep_allP P web hweb s h)
    · simp only [crawlRun, if_neg hc]
      exact h

/-- C4: with the fetcher of the source (whose link discovery keeps only
URLs whose parsed hostname equals the start URL's hostname), every URL
that ever enters the visited set parses to the start URL's hostname — the
start URL trivially, every other one because it passed the same-domain
filter before being queued. -/
theorem visited_same_domain (parse2 : String → String → Option JsUrl)
    (parse1 : String → Option JsUrl) (net : String → Bool)
    (pagesNet : String → Option PageDoc) (startUrl archivePath : String)
    (mp fuel : Nat) (su : JsUrl) (hsu : parse1 startUrl = some su) :
    ∀ v ∈ (crawlRun (webOf parse2 parse1 net pagesNet startUrl archivePath) mp fuel
        (initState startUrl)).visited,
      ∃ u, parse1 v = some u ∧ u.hostname = su.hostname := by
  have hinit : stateAllP (fun x => ∃ u, parse1 x = some u ∧ u.hostname = su.hostname)
      (initState startUrl) := by
    constructor
    · intro x hx
      simp [initState] at hx
      exact hx ▸ ⟨su, hsu, rfl⟩
    · intro x hx
      simp [initState] at hx
  exact (crawlRun_allP _ _ (webOf_host parse2 parse1 net pagesNet startUrl archivePath su hsu)
    mp fuel _ hinit).2

/-- C4 witness: in the two-page demo world the discovered page
`http://e/a` is visited and indeed parses to the start hostname `e`. -/
theorem visited_same_domain_witness :
    ∃ u, demoParse1 "http://e/a" = some u ∧ u.hostname = "e" :=
  visited_same_domain demoParse2 demoParse1 (fun _ => true) demoPagesNet
    "http://e/" "/arch" 10 3 ⟨"http://e/", "e", "/"⟩ rfl "http://e/a" (by decide)

/-- C6: the Path Mapper of the source computes exactly the path described
by the spec: archivePath joined with the name obtained by stripping one
leading and one trailing slash from the URL's path, replacing unsafe
characters with underscores, substituting `index.html` when the name is
empty or the hostnames differ, and appending `index.html` beneath
extension-less names. -/
theorem path_mapper_matches_spec (pageU startU : JsUrl) (archivePath : String) :
    getLocalFilePathForPage pageU startU archivePath = pathMapperSpec pageU startU archivePath := by
  unfold getLocalFilePathForPage pathMapperSpec
  have hx : extname "index.html" ≠ "" := by decide
  by_cases h : sanitizeFilename (stripEdgeSlashes pageU.pathname) = "" ∨ pageU.hostname ≠ startU.hostname
  · simp [h, hx]
  · simp [h]

/-- C9 counterexample: a request whose body carries `url` as the empty
string does not lack `url`, yet the handler rejects it with a client
error and starts nothing — `if (!url)` tests JavaScript truthiness, not
presence. -/
theorem empty_url_rejected_cex :
    handleArchive ⟨some "", none⟩ = EndpointResult.clientError 400 ∧
    (ArchiveRequest.mk (some "") none).url ≠ none := by
  constructor
  · rfl
  · intro h; cases h

/-- C9 (amended): the trigger endpoint fails with a client error exactly
when `url` is absent or the empty string; for any other `url` it starts a
session, with budget `maxPages` when that is positive and the default 10
when `maxPages` is absent or non-positive. -/
theorem archive_endpoint_cases (r : ArchiveRequest) :
    ((∃ code, handleArchive r = .clientError code) ↔ (r.url = none ∨ r.url = some "")) ∧
    (∀ u, r.url = some u → u ≠ "" →
      handleArchive r = .started u
        (match r.maxPages with
         | some m => if m > 0 then m else 10
         | none => 10)) := by
  constructor
  · constructor
    · rintro ⟨code, hc⟩
      cases hu : r.url with
      | none => left; rfl
      | some u =>
        by_cases he : u = ""
        · right; rw [he]
        · exfalso
          unfold handleArchive at hc
          rw [hu] at hc
          simp [he] at hc
    · intro h
      rcases h with h | h
      · exact ⟨400, by unfold handleArchive; rw [h]⟩
      · exact ⟨400, by unfold handleArchive; rw [h]; simp⟩
  · intro u hu hne
    unfold handleArchive
    rw [hu]
    simp [hne]

/-- C9 witness: a well-formed request starts a session with its own
positive budget. -/
theorem archive_endpoint_cases_witness :
    handleArchive ⟨some "http://e/", some 5⟩ = EndpointResult.started "http://e/" 5 := by
  have h := (archive_endpoint_cases ⟨some "http://e/", some 5⟩).2 "http://e/" rfl (by decide)
  simpa using h

/-- C5: whenever a session writes a manifest, its `crawledPages` is
exactly the session's final visited set — a permutation of it, sorted
under the string order, with no duplicates and no omissions. -/
theorem manifest_fidelity (parse1 : String → Option JsUrl)
    (web : String → Option (List String)) (startUrl : String) (mp fuel : Nat)
    (archivePath : String) (m : Manifest)
    (h : runSession parse1 web startUrl mp fuel archivePath = some m) :
    m.crawledPages.Perm (crawlRun web mp fuel (initState startUrl)).visited ∧
    List.Sorted (fun a b : String => a ≤ b) m.crawledPages ∧
    m.crawledPages.Nodup := by
  unfold runSession at h
  cases hp : parse1 startUrl with
  | none => rw [hp] at h; cases h
  | some su =>
    rw [hp] at h
    dsimp only at h
    by_cases hall : (crawlRun web mp fuel (initState startUrl)).pages.all
        (fun u => (parse1 u).isSome) = true
    · rw [if_pos hall] at h
      injection h with h2
      have hcp : m.crawledPages =
          List.insertionSort (fun a b : String => a ≤ b)
            (crawlRun web mp fuel (initState startUrl)).visited := by
        rw [← h2]
      have hnd : (crawlRun web mp fuel (initState startUrl)).visited.Nodup :=
        (crawlRun_inv web mp fuel (initState startUrl) (crawlInv_init startUrl)).1.2.1
      refine ⟨?_, ?_, ?_⟩
      · rw [hcp]; exact List.perm_insertionSort _ _
      · rw [hcp]; exact List.sorted_insertionSort _ _
      · rw [hcp]
        exact (List.perm_insertionSort (fun a b : String => a ≤ b) _).symm.nodup hnd
    · rw [if_neg hall] at h
      cases h

/-- C5 witness: the one-page demo session writes the manifest whose page
list is exactly the singleton visited set. -/
theorem manifest_fidelity_witness :
    (Manifest.mk "http://e/" "index.html" ["http://e/"]).crawledPages.Perm
      (crawlRun demoWebOne 10 2 (initState "http://e/")).visited ∧
    List.Sorted (fun a b : String => a ≤ b)
      (Manifest.mk "http://e/" "index.html" ["http://e/"]).crawledPages ∧
    (Manifest.mk "http://e/" "index.html" ["http://e/"]).crawledPages.Nodup :=
  manifest_fidelity demoParse1 demoWebOne "http://e/" 10 2 "/arch"
    (Manifest.mk "http://e/" "index.html" ["http://e/"]) (by decide)

theorem crawlRun_start_failed (web : String → Option (List String)) (mp fuel : Nat)
    (startUrl : String) (hw : web startUrl = none) :
    (crawlRun web mp fuel (initState startUrl)).visited = [] ∧
    (crawlRun web mp fuel (initState startUrl)).pages = [] := by
  cases fuel with
  | zero => exact ⟨rfl, rfl⟩
  | succ f =>
    by_cases h : (initState startUrl).queue ≠ [] ∧ (initState startUrl).visited.length < mp
    · simp only [crawlRun, if_pos h]
      have hstep : crawlStep web (initState startUrl) =
          { queue := [], visited := [], pages := [], fetchLog := [(startUrl, false)] } := by
        simp [crawlStep, initState, hw]
      rw [hstep, crawlRun_stopped web mp _ (by simp) f]
      exact ⟨rfl, rfl⟩
    · simp only [crawlRun, if_neg h]
      exact ⟨rfl, rfl⟩

/-- C10: every session whose start URL parses and whose stored pages all
re-parse in phase 2 (guaranteed for pages phase 1 fetched, since parsing
is deterministic) writes a manifest, built from the sorted visited set and
an entrypoint computed from the start URL; in particular when the very
first fetch fails the session still writes a manifest with
`crawledPages = []` and that same entrypoint. -/
theorem manifest_always_written (parse1 : String → Option JsUrl)
    (web : String → Option (List String)) (startUrl : String) (mp fuel : Nat)
    (archivePath : String) (su : JsUrl) (hsu : parse1 startUrl = some su)
    (hp2 : (crawlRun web mp fuel (initState startUrl)).pages.all
      (fun u => (parse1 u).isSome) = true) :
    runSession parse1 web startUrl mp fuel archivePath =
      some { startUrl := startUrl,
             entrypoint := pathRelative archivePath (getLocalFilePathForPage su su archivePath),
             crawledPages := List.insertionSort (fun a b : String => a ≤ b)
               (crawlRun web mp fuel (initState startUrl)).visited } ∧
    (web startUrl = none →
      runSession parse1 web startUrl mp fuel archivePath =
        some { startUrl := startUrl,
               entrypoint := pathRelative archivePath (getLocalFilePathForPage su su archivePath),
               crawledPages := [] }) := by
  have hbase : runSession parse1 web startUrl mp fuel archivePath =
      some { startUrl := startUrl,
             entrypoint := pathRelative archivePath (getLocalFilePathForPage su su archivePath),
             crawledPages := List.insertionSort (fun a b : String => a ≤ b)
               (crawlRun web mp fuel (initState startUrl)).visited } := by
    unfold runSession
    rw [hsu]
    dsimp only
    rw [if_pos hp2]
  refine ⟨hbase, ?_⟩
  intro hw
  have hz := crawlRun_start_failed web mp fuel startUrl hw
  rw [hbase, hz.1]
  rfl

/-- C10 witness: the zero-page demo session (every fetch fails) still
yields a manifest with an empty page list and the start entrypoint. -/
theorem manifest_always_written_witness :
    runSession demoParse1 (fun _ => none) "http://e/" 10 3 "/arch" =
      some { startUrl := "http://e/",
             entrypoint := pathRelative "/arch"
               (getLocalFilePathForPage ⟨"http://e/", "e", "/"⟩ ⟨"http://e/", "e", "/"⟩ "/arch"),
             crawledPages := [] } :=
  (manifest_always_written demoParse1 (fun _ => none) "http://e/" 10 3 "/arch"
    ⟨"http://e/", "e", "/"⟩ rfl (by decide)).2 rfl

/-- C2 counterexample: an anchor with an empty `href` starts with none of
`#`, `mailto:`, `tel:`, resolves against the page URL to the page itself
(on-domain and visited), yet phase 2 leaves it untouched instead of
rewriting it to the relative path `index.html` — the `if (href && ...)`
guard drops falsy hrefs before the classification the claim describes. -/
theorem rewrite_empty_href_cex :
    rewriteHref demoParse2 demoParse1 "e" ["http://e/a"] demoStartU demoPageA
        "/arch" "http://e/a" "" = "" ∧
    demoParse2 "" "http://e/a" = some demoPageA ∧
    demoParse1 "http://e/a" = some demoPageA ∧
    demoPageA.hostname = "e" ∧
    List.contains ["http://e/a"] "http://e/a" = true ∧
    pathRelative (pathDirname (getLocalFilePathForPage demoPageA demoStartU "/arch"))
        (getLocalFilePathForPage demoPageA demoStartU "/arch") = "index.html" ∧
    ("" : String) ≠ "index.html" := by
  refine ⟨rfl, by decide, by decide, rfl, by decide, by decide, by decide⟩

/-- C2 (amended): for every anchor whose href is non-empty, does not start
with `#`, `mailto:` or `tel:`, and resolves against the page URL (with the
fragment-stripped resolution re-parsing): if the resolved URL's hostname is
the crawl domain and the URL is in the visited set, the href becomes the
relative filesystem path from the page's directory to the target's mapped
local path (`./index.html` when that path is empty), and otherwise it
becomes the absolute resolved fragment-stripped URL. -/
theorem anchor_rewrite_cases (parse2 : String → String → Option JsUrl)
    (parse1 : String → Option JsUrl) (domain : String) (visited : List String)
    (startU pageU : JsUrl) (archivePath currentUrl href : String) (u u2 : JsUrl)
    (hne : href ≠ "") (h1 : strStartsWith href "#" = false)
    (h2 : strStartsWith href "mailto:" = false) (h3 : strStartsWith href "tel:" = false)
    (hres : parse2 href currentUrl = some u)
    (habs : parse1 (stripFragment u.href) = some u2) :
    rewriteHref parse2 parse1 domain visited startU pageU archivePath currentUrl href =
      if u2.hostname = domain ∧ visited.contains (stripFragment u.href) then
        (if pathRelative (pathDirname (getLocalFilePathForPage pageU startU archivePath))
             (getLocalFilePathForPage u2 startU archivePath) = "" then "./index.html"
         else pathRelative (pathDirname (getLocalFilePathForPage pageU startU archivePath))
             (getLocalFilePathForPage u2 startU archivePath))
      else stripFragment u.href := by
  unfold rewriteHref
  rw [if_neg hne, h1, h2, h3]
  simp only [Bool.false_eq_true, if_false, hres, habs]

/-- C2 witness: on page `http://e/a`, the href `/b.html` to the visited
page `http://e/b.html` is rewritten to the relative path `../b.html`. -/
theorem anchor_rewrite_cases_witness :
    rewriteHref demoParse2 demoParse1 "e" ["http://e/b.html"] demoStartU demoPageA
        "/arch" "http://e/a" "/b.html" =
      if (JsUrl.mk "http://e/b.html" "e" "/b.html").hostname = "e" ∧
          List.contains ["http://e/b.html"]
            (stripFragment (JsUrl.mk "http://e/b.html" "e" "/b.html").href) then
        (if pathRelative (pathDirname (getLocalFilePathForPage demoPageA demoStartU "/arch"))
             (getLocalFilePathForPage (JsUrl.mk "http://e/b.html" "e" "/b.html") demoStartU
               "/arch") = "" then "./index.html"
         else pathRelative (pathDirname (getLocalFilePathForPage demoPageA demoStartU "/arch"))
             (getLocalFilePathForPage (JsUrl.mk "http://e/b.html" "e" "/b.html") demoStartU
               "/arch"))
      else stripFragment (JsUrl.mk "http://e/b.html" "e" "/b.html").href :=
  anchor_rewrite_cases demoParse2 demoParse1 "e" ["http://e/b.html"] demoStartU demoPageA
    "/arch" "http://e/a" "/b.html" (JsUrl.mk "http://e/b.html" "e" "/b.html")
    (JsUrl.mk "http://e/b.html" "e" "/b.html")
    (by decide) (by decide) (by decide) (by decide) (by decide) (by decide)

/-- C8: a malformed (unparseable) href is skipped in isolation: phase-1
discovery over anchors containing it yields exactly the links of the same
list without it, phase-2 rewriting leaves the href text untouched, and the
page's phase-2 pass maps every other anchor exactly as it would without
the malformed one. -/
theorem malformed_link_skipped (parse2 : String → String → Option JsUrl)
    (parse1 : String → Option JsUrl) (d url bad : String)
    (pre post : List (Option String)) (visited : List String) (startU pageU : JsUrl)
    (archivePath currentUrl : String) (pre2 post2 : List (Option String))
    (hbad : parse2 bad url = none) (hbad2 : parse2 bad currentUrl = none) :
    discoverLinks parse2 parse1 d url (pre ++ some bad :: post) =
      discoverLinks parse2 parse1 d url (pre ++ post) ∧
    rewriteHref parse2 parse1 d visited startU pageU archivePath currentUrl bad = bad ∧
    rewritePage parse2 parse1 d visited startU pageU archivePath currentUrl
        (pre2 ++ some bad :: post2) =
      rewritePage parse2 parse1 d visited startU pageU archivePath currentUrl pre2 ++
        some bad ::
        rewritePage parse2 parse1 d visited startU pageU archivePath currentUrl post2 := by
  have hrw : rewriteHref parse2 parse1 d visited startU pageU archivePath currentUrl bad
      = bad := by
    unfold rewriteHref
    by_cases he : bad = ""
    · rw [if_pos he]
    · rw [if_neg he]
      by_cases g1 : strStartsWith bad "#" = true
      · rw [g1]; simp
      · rw [Bool.not_eq_true] at g1
        rw [g1]
        by_cases g2 : strStartsWith bad "mailto:" = true
        · rw [g2]; simp
        · rw [Bool.not_eq_true] at g2
          rw [g2]
          by_cases g3 : strStartsWith bad "tel:" = true
          · rw [g3]; simp
          · rw [Bool.not_eq_true] at g3
            rw [g3]
            simp only [Bool.false_eq_true, if_false, hbad2]
  refine ⟨?_, hrw, ?_⟩
  · induction pre with
    | nil =>
      by_cases he : bad = ""
      · simp [discoverLinks, he]
      · simp [discoverLinks, he, hbad]
    | cons h t ih =>
      cases h with
      | none => simpa [discoverLinks] using ih
      | some link =>
        simp only [List.cons_append, discoverLinks, List.append_eq]
        rw [ih]
  · unfold rewritePage
    rw [List.map_append, List.map_cons]
    simp only [Option.map_some']
    rw [hrw]

/-- C8 witness: in the demo world, the unparseable href `"::bad"` between
two sound anchors is dropped from discovery, left untouched by rewriting,
and the surrounding anchors are processed as if it were absent. -/
theorem malformed_link_skipped_witness :
    discoverLinks demoParse2 demoParse1 "e" "http://e/" ([some "a"] ++ some "::bad" :: [])
        = discoverLinks demoParse2 demoParse1 "e" "http://e/" ([some "a"] ++ []) ∧
    rewriteHref demoParse2 demoParse1 "e" ["http://e/a"] demoStartU demoStartU "/arch"
        "http://e/" "::bad" = "::bad" ∧
    rewritePage demoParse2 demoParse1 "e" ["http://e/a"] demoStartU demoStartU "/arch"
        "http://e/" ([some "a"] ++ some "::bad" :: [some "/b.html"]) =
      rewritePage demoParse2 demoParse1 "e" ["http://e/a"] demoStartU demoStartU "/arch"
          "http://e/" [some "a"] ++
        some "::bad" ::
        rewritePage demoParse2 demoParse1 "e" ["http://e/a"] demoStartU demoStartU "/arch"
          "http://e/" [some "/b.html"] :=
  malformed_link_skipped demoParse2 demoParse1 "e" "http://e/" "::bad"
    [some "a"] [] ["http://e/a"] demoStartU demoStartU "/arch" "http://e/"
    [some "a"] [some "/b.html"] (by decide) (by decide)

theorem assetFinish_master (parse2 : String → String → Option JsUrl) (net net2 : String → Bool)
    (url archivePath safeId pageDir : String) (c : Counters) (e : AssetElem)
    (fu : Option String) (fn : String) (c2 : Counters) (e2 : AssetElem)
    (h : assetFinish parse2 net url archivePath safeId pageDir c e fu fn = some (c2, e2)) :
    c2 = c ∧
    (assetFinish parse2 net2 url archivePath safeId pageDir c e fu fn).isSome = true ∧
    (∀ s u, fu = some s → s ≠ "" → strStartsWith s "data:" = false → parse2 s url = some u →
      net u.href = false → e2 = e) := by
  unfold assetFinish at h ⊢
  cases fu with
  | none =>
    dsimp only at h ⊢
    simp only [Option.some.injEq, Prod.mk.injEq] at h
    exact ⟨h.1.symm, rfl, fun s u hs => by cases hs⟩
  | some s =>
    dsimp only at h ⊢
    by_cases h1 : s = ""
    · rw [if_pos h1] at h
      simp only [Option.some.injEq, Prod.mk.injEq] at h
      refine ⟨h.1.symm, ?_, ?_⟩
      · rw [if_pos h1]; rfl
      · intro s2 u hs2 hne hdata hp hnet
        injection hs2 with hs3
        exact absurd (hs3 ▸ h1) hne
    · rw [if_neg h1] at h
      by_cases h2 : strStartsWith s "data:" = true
      · rw [if_pos h2] at h
        simp only [Option.some.injEq, Prod.mk.injEq] at h
        refine ⟨h.1.symm, ?_, ?_⟩
        · rw [if_neg h1, if_pos h2]; rfl
        · intro s2 u hs2 hne hdata hp hnet
          injection hs2 with hs3
          rw [← hs3, h2] at hdata
          cases hdata
      · rw [if_neg h2] at h
        cases hp : parse2 s url with
        | none => rw [hp] at h; cases h
        | some u =>
          rw [hp] at h
          dsimp only at h
          refine ⟨?_, ?_, ?_⟩
          · by_cases hn : net u.href = true
            · rw [if_pos hn] at h
              simp only [Option.some.injEq, Prod.mk.injEq] at h
              exact h.1.symm
            · rw [if_neg hn] at h
              simp only [Option.some.injEq, Prod.mk.injEq] at h
              exact h.1.symm
          · rw [if_neg h1, if_neg h2]
            dsimp only
            by_cases hn2 : net2 u.href = true
            · rw [if_pos hn2]; rfl
            · rw [if_neg hn2]; rfl
          · intro s2 u3 hs2 hne hdata hp2 hnet
            injection hs2 with hs3
            subst hs3
            rw [hp] at hp2
            injection hp2 with hu3
            subst hu3
            rw [hnet] at h
            simp only [Bool.false_eq_true, if_false, Option.some.injEq, Prod.mk.injEq] at h
            exact h.2.symm

theorem procOne_master (parse2 : String → String → Option JsUrl) (net net2 : String → Bool)
    (url archivePath safeId pageDir : String) (c : Counters) (e : AssetElem)
    (c2 : Counters) (e2 : AssetElem)
    (h : processOne parse2 net url archivePath safeId pageDir c e = some (c2, e2)) :
    c2 = bumpCounters c e.tag ∧
    (processOne parse2 net2 url archivePath safeId pageDir c e).isSome = true ∧
    (assetDownloadFailed parse2 net url e → e2 = e) := by
  obtain ⟨tg, eh, es, ess⟩ := e
  cases tg with
  | css =>
    unfold processOne at h ⊢
    dsimp only at h ⊢
    obtain ⟨hc, hsome, hun⟩ := assetFinish_master parse2 net net2 url archivePath safeId pageDir
      (bumpCounters c AssetTag.css) ⟨AssetTag.css, eh, es, ess⟩
      (assetFileUrl ⟨AssetTag.css, eh, es, ess⟩)
      ("style-" ++ toString (c.css + 1) ++ ".css") c2 e2 h
    refine ⟨hc, hsome, ?_⟩
    rintro ⟨s, u, hs, hne, hdata, hp, hnet⟩
    exact hun s u hs hne hdata hp hnet
  | img =>
    unfold processOne at h ⊢
    dsimp only at h ⊢
    cases hp : parse2 (jsCoerce (assetFileUrl ⟨AssetTag.img, eh, es, ess⟩)) url with
    | none => rw [hp] at h; cases h
    | some u =>
      rw [hp] at h
      dsimp only at h
      obtain ⟨hc, hsome, hun⟩ := assetFinish_master parse2 net net2 url archivePath safeId pageDir
        (bumpCounters c AssetTag.img) ⟨AssetTag.img, eh, es, ess⟩
        (assetFileUrl ⟨AssetTag.img, eh, es, ess⟩)
        ("image-" ++ toString (c.img + 1) ++
          (if extname u.pathname = "" then ".jpg" else extname u.pathname)) c2 e2 h
      refine ⟨hc, ?_, ?_⟩
      · dsimp only
        exact hsome
      · rintro ⟨s, u3, hs, hne, hdata, hp3, hnet⟩
        exact hun s u3 hs hne hdata hp3 hnet
  | js =>
    unfold processOne at h ⊢
    dsimp only at h ⊢
    cases hp : parse2 (jsCoerce (assetFileUrl ⟨AssetTag.js, eh, es, ess⟩)) url with
    | none => rw [hp] at h; cases h
    | some u =>
      rw [hp] at h
      dsimp only at h
      obtain ⟨hc, hsome, hun⟩ := assetFinish_master parse2 net net2 url archivePath safeId pageDir
        (bumpCounters c AssetTag.js) ⟨AssetTag.js, eh, es, ess⟩
        (assetFileUrl ⟨AssetTag.js, eh, es, ess⟩)
        ("script-" ++ toString (c.js + 1) ++
          (if extname u.pathname = "" then ".js" else extname u.pathname)) c2 e2 h
      refine ⟨hc, ?_, ?_⟩
      · dsimp only
        exact hsome
      · rintro ⟨s, u3, hs, hne, hdata, hp3, hnet⟩
        exact hun s u3 hs hne hdata hp3 hnet

theorem processAssets_length (parse2 : String → String → Option JsUrl) (net : String → Bool)
    (url archivePath safeId pageDir : String) :
    ∀ es c out, processAssets parse2 net url archivePath safeId pageDir c es = some out →
      out.length = es.length := by
  intro es
  induction es with
  | nil =>
    intro c out h
    injection h with h2
    rw [← h2]
  | cons e t ih =>
    intro c out h
    unfold processAssets at h
    cases h1 : processOne parse2 net url archivePath safeId pageDir c e with
    | none => rw [h1] at h; cases h
    | some p =>
      rw [h1] at h
      dsimp only at h
      cases h2 : processAssets parse2 net url archivePath safeId pageDir p.1 t with
      | none =>
        rw [h2] at h
        cases h
      | some out2 =>
        rw [h2] at h
        injection h with h3
        rw [← h3, List.length_cons, List.length_cons, ih p.1 out2 h2]

theorem processAssets_get (parse2 : String → String → Option JsUrl) (net : String → Bool)
    (url archivePath safeId pageDir : String) :
    ∀ es c out, processAssets parse2 net url archivePath safeId pageDir c es = some out →
      ∀ i (h1 : i < es.length) (h2 : i < out.length),
        ∃ c2, processOne parse2 net url archivePath safeId pageDir
            (countersAfter c (es.take i)) (es.get ⟨i, h1⟩) = some (c2, out.get ⟨i, h2⟩) := by
  intro es
  induction es with
  | nil =>
    intro c out h i h1 h2
    exact absurd h1 (Nat.not_lt_zero i)
  | cons e t ih =>
    intro c out h i h1 h2
    unfold processAssets at h
    cases hp : processOne parse2 net url archivePath safeId pageDir c e with
    | none => rw [hp] at h; cases h
    | some p =>
      rw [hp] at h
      dsimp only at h
      cases hr : processAssets parse2 net url archivePath safeId pageDir p.1 t with
      | none => rw [hr] at h; cases h
      | some out2 =>
        rw [hr] at h
        injection h with h3
        subst h3
        cases i with
        | zero =>
          exact ⟨p.1, by simpa [countersAfter] using hp⟩
        | succ i =>
          have hc1 : p.1 = bumpCounters c e.tag :=
            (procOne_master parse2 net net url archivePath safeId pageDir c e p.1 p.2
              (by simpa using hp)).1
          have htake : countersAfter c ((e :: t).take (i + 1))
              = countersAfter (bumpCounters c e.tag) (t.take i) := by
            simp [countersAfter]
          rw [show ((e :: t).get ⟨i + 1, h1⟩) = t.get ⟨i, Nat.lt_of_succ_lt_succ h1⟩ from rfl,
            show ((p.2 :: out2).get ⟨i + 1, h2⟩)
              = out2.get ⟨i, Nat.lt_of_succ_lt_succ h2⟩ from rfl, htake, ← hc1]
          exact ih p.1 out2 hr i (Nat.lt_of_succ_lt_succ h1) (Nat.lt_of_succ_lt_succ h2)

theorem processAssets_isSome_net (parse2 : String → String → Option JsUrl)
    (net net2 : String → Bool) (url archivePath safeId pageDir : String) :
    ∀ es c, (processAssets parse2 net url archivePath safeId pageDir c es).isSome = true →
      (processAssets parse2 net2 url archivePath safeId pageDir c es).isSome = true := by
  intro es
  induction es with
  | nil => intro c _; rfl
  | cons e t ih =>
    intro c h
    unfold processAssets at h ⊢
    cases hp : processOne parse2 net url archivePath safeId pageDir c e with
    | none => rw [hp] at h; cases h
    | some p =>
      rw [hp] at h
      dsimp only at h
      obtain ⟨hc1, hsome2, _⟩ := procOne_master parse2 net net2 url archivePath safeId pageDir
        c e p.1 p.2 (by simpa using hp)
      cases hp2 : processOne parse2 net2 url archivePath safeId pageDir c e with
      | none => rw [hp2] at hsome2; cases hsome2
      | some q =>
        obtain ⟨q1, q2⟩ := q
        obtain ⟨hcq, _, _⟩ := procOne_master parse2 net2 net2 url archivePath safeId pageDir
          c e q1 q2 hp2
        dsimp only
        cases hr : processAssets parse2 net url archivePath safeId pageDir p.1 t with
        | none => rw [hr] at h; cases h
        | some out2 =>
          have hrec : (processAssets parse2 net2 url archivePath safeId pageDir q1 t).isSome
              = true := by
            rw [show q1 = (q1, q2).1 from rfl, hcq, ← hc1]
            exact ih p.1 (by rw [hr]; rfl)
          cases hr2 : processAssets parse2 net2 url archivePath safeId pageDir q1 t with
          | none => rw [hr2] at hrec; cases hrec
          | some out3 => rfl

/-- C7 (amended): provided every asset reference of a retrieved page
resolves (here: the run of `processAssets` under some network oracle
returned a value, which never depends on download outcomes), the page
fetch succeeds; the element list comes out with one element per asset,
each element is produced by processing it alone with counters determined
only by the tags before it (so no asset affects another), an element whose
download failed is exactly its original, and the fetch succeeds under
every network oracle — no number of failed downloads can fail the page.
(The original claim is refuted by `asset_resolution_aborts_fetch_cex`: an
asset reference that fails to parse aborts the whole page fetch even
though the document was retrieved and parsed.) -/
theorem asset_failures_isolated (parse2 : String → String → Option JsUrl)
    (parse1 : String → Option JsUrl) (net : String → Bool)
    (pagesNet : String → Option PageDoc) (startUrl archivePath url : String)
    (doc : PageDoc) (su pu : JsUrl) (out : List AssetElem)
    (hdoc : pagesNet url = some doc) (hsu : parse1 startUrl = some su)
    (hpu : parse1 url = some pu)
    (hassets : processAssets parse2 net url archivePath (safeIdOf pu.pathname)
        (pathDirname (getLocalFilePathForPage pu su archivePath)) (Counters.mk 0 0 0) doc.assets
      = some out) :
    fetchPage parse2 parse1 net pagesNet startUrl archivePath url
      = some (dedupKeepFirst (discoverLinks parse2 parse1 su.hostname url doc.anchors), out) ∧
    out.length = doc.assets.length ∧
    (∀ i (h1 : i < doc.assets.length) (h2 : i < out.length),
      assetDownloadFailed parse2 net url (doc.assets.get ⟨i, h1⟩) →
        out.get ⟨i, h2⟩ = doc.assets.get ⟨i, h1⟩) ∧
    (∀ i (h1 : i < doc.assets.length) (h2 : i < out.length), ∃ c2,
      processOne parse2 net url archivePath (safeIdOf pu.pathname)
        (pathDirname (getLocalFilePathForPage pu su archivePath))
        (countersAfter (Counters.mk 0 0 0) (doc.assets.take i)) (doc.assets.get ⟨i, h1⟩)
        = some (c2, out.get ⟨i, h2⟩)) ∧
    (∀ net2 : String → Bool,
      (fetchPage parse2 parse1 net2 pagesNet startUrl archivePath url).isSome = true) := by
  refine ⟨?_, ?_, ?_, ?_, ?_⟩
  · unfold fetchPage
    rw [hdoc, hsu, hpu]
    dsimp only
    rw [hassets]
  · exact processAssets_length parse2 net url archivePath (safeIdOf pu.pathname)
      (pathDirname (getLocalFilePathForPage pu su archivePath)) doc.assets
      (Counters.mk 0 0 0) out hassets
  · intro i h1 h2 hfail
    obtain ⟨c2, hone⟩ := processAssets_get parse2 net url archivePath (safeIdOf pu.pathname)
      (pathDirname (getLocalFilePathForPage pu su archivePath)) doc.assets
      (Counters.mk 0 0 0) out hassets i h1 h2
    exact (procOne_master parse2 net net url archivePath (safeIdOf pu.pathname)
      (pathDirname (getLocalFilePathForPage pu su archivePath)) _ _ _ _ hone).2.2 hfail
  · exact processAssets_get parse2 net url archivePath (safeIdOf pu.pathname)
      (pathDirname (getLocalFilePathForPage pu su archivePath)) doc.assets
      (Counters.mk 0 0 0) out hassets
  · intro net2
    unfold fetchPage
    rw [hdoc, hsu, hpu]
    dsimp only
    have hs2 : (processAssets parse2 net2 url archivePath (safeIdOf pu.pathname)
        (pathDirname (getLocalFilePathForPage pu su archivePath)) (Counters.mk 0 0 0)
        doc.assets).isSome = true :=
      processAssets_isSome_net parse2 net net2 url archivePath (safeIdOf pu.pathname)
        (pathDirname (getLocalFilePathForPage pu su archivePath)) doc.assets
        (Counters.mk 0 0 0) (by rw [hassets]; rfl)
    cases hpa2 : processAssets parse2 net2 url archivePath (safeIdOf pu.pathname)
        (pathDirname (getLocalFilePathForPage pu su archivePath)) (Counters.mk 0 0 0)
        doc.assets with
    | none => rw [hpa2] at hs2; cases hs2
    | some out2 => rfl

/-- C7 witness: in the demo world where the single image's download fails
under the all-failing network, the page fetch still succeeds and returns
the image element unchanged. -/
theorem asset_failures_isolated_witness :
    fetchPage demoParse2 demoParse1 (fun _ => false) demoPagesW "http://e/" "/arch" "http://e/"
      = some (dedupKeepFirst (discoverLinks demoParse2 demoParse1
          (JsUrl.mk "http://e/" "e" "/").hostname "http://e/"
          (PageDoc.mk [] [demoAsset]).anchors), [demoAsset]) :=
  (asset_failures_isolated demoParse2 demoParse1 (fun _ => false) demoPagesW "http://e/"
    "/arch" "http://e/" (PageDoc.mk [] [demoAsset]) (JsUrl.mk "http://e/" "e" "/")
    (JsUrl.mk "http://e/" "e" "/") [demoAsset] (by decide) (by decide) (by decide)
    (by decide)).1

/-- C7 counterexample: a page whose document is retrieved and parsed, with
no failing download at all (the network always succeeds), still fails the
whole fetch because one image's source reference does not parse — the
synchronous `new URL(fileUrl, url)` throw escapes to the outer catch. -/
theorem asset_resolution_aborts_fetch_cex :
    fetchPage demoParse2 demoParse1 (fun _ => true) badPagesNet "http://e/" "/arch" "http://e/"
      = none ∧
    (badPagesNet "http://e/").isSome = true := by
  exact ⟨by decide, by decide⟩
